import Mathlib

/-!
Verification development for the Azure resource-discovery utilities of the
guard repository (util/azure/utils.go).  Strings are modelled as lists of
characters; Go maps are modelled as association lists whose update operation
has Go's upsert semantics; Go panics (out-of-range indexing, nil pointer
dereference) are modelled by an Option-valued result where `none` marks the
panic.
-/

namespace Guard

set_option synthInstance.maxSize 2048

/-- Strings, modelled as lists of characters. -/
abbrev Str : Type := List Char

/-- Conversion from Lean string literals to the character-list model. -/
def chars (s : String) : Str := s.data

/-- Go strings.Split(s, "/"): split on every slash; Split("", "/") is [""]. -/
def splitSlash : Str → List Str
  | [] => [[]]
  | c :: rest =>
    if c = '/' then [] :: splitSlash rest
    else
      match splitSlash rest with
      | [] => [[c]]
      | s :: ss => (c :: s) :: ss

/-- Join a list of segments with slashes (inverse of splitSlash). -/
def strJoin : List Str → Str
  | [] => []
  | [s] => s
  | s :: t :: rest => s ++ '/' :: strJoin (t :: rest)

/-- Does the first string start with the second one (Go strings.HasPrefix). -/
def startsWithSeq : Str → Str → Bool
  | _, [] => true
  | [], _ :: _ => false
  | c :: s, d :: p => if c = d then startsWithSeq s p else false

/-- Go strings.Contains(s, sub): does sub occur inside s. -/
def containsSub : Str → Str → Bool
  | [], sub => startsWithSeq [] sub
  | c :: t, sub => startsWithSeq (c :: t) sub || containsSub t sub

/-- Number of slash characters in a string. -/
def countSlash : Str → Nat
  | [] => 0
  | c :: t => (if c = '/' then 1 else 0) + countSlash t

/-- A path segment survives Go path.Clean iff it is not empty and not ".". -/
def keepSeg (s : Str) : Bool :=
  if s = [] then false else if s = chars "." then false else true

/-- The segment-processing loop of Go path.Clean: drop empty and "." segments,
resolve ".." against the stack of kept segments. -/
def cleanCore (rooted : Bool) : List Str → List Str → List Str
  | stack, [] => stack.reverse
  | stack, seg :: rest =>
    if seg = [] ∨ seg = chars "." then cleanCore rooted stack rest
    else if seg = chars ".." then
      match stack with
      | [] => if rooted then cleanCore rooted [] rest else cleanCore rooted [seg] rest
      | top :: stk =>
        if top = chars ".." then cleanCore rooted (seg :: stack) rest
        else cleanCore rooted stk rest
    else cleanCore rooted (seg :: stack) rest

/-- Go path.Clean. -/
def pathClean (s : Str) : Str :=
  if s = [] then chars "."
  else
    let rooted : Bool := s.headD ' ' == '/'
    let segs := cleanCore rooted [] (splitSlash s)
    let out := strJoin segs
    if rooted then '/' :: out
    else if out = [] then chars "." else out

/-- Go path.Join for two elements: skip empty elements, join with a slash,
then Clean the result; Join of two empty strings is "". -/
def pathJoin (a b : Str) : Str :=
  if a = [] then
    if b = [] then [] else pathClean b
  else pathClean (a ++ '/' :: b)

/-- Cluster type tag for AKS managed clusters (constant ManagedClusters). -/
def ManagedClusters : Str := chars "Microsoft.ContainerService/managedClusters"

/-- Cluster type tag for fleets (constant Fleets). -/
def Fleets : Str := chars "Microsoft.ContainerService/fleets"

/-- Cluster type tag for ARC connected clusters (constant ConnectedClusters). -/
def ConnectedClusters : Str := chars "Microsoft.Kubernetes/connectedClusters"

/-- OperationsEndpointFormatARC instantiated with a resource-manager endpoint
(the Go constant is a Sprintf format whose only verb is the leading %s). -/
def OperationsEndpointFormatARC (resourceManagerEndpoint : Str) : Str :=
  resourceManagerEndpoint ++ chars "/providers/Microsoft.Kubernetes/operations?api-version=2021-10-01"

/-- OperationsEndpointFormatAKS instantiated with a resource-manager endpoint. -/
def OperationsEndpointFormatAKS (resourceManagerEndpoint : Str) : Str :=
  resourceManagerEndpoint ++ chars "/providers/Microsoft.ContainerService/operations?api-version=2018-10-31"

/-- An operation as decoded from the Azure operations-list response; the Go
field IsDataAction is a *bool, so a missing or null flag is `none`.  The
display metadata is not consulted by any modelled code and is omitted. -/
structure Operation where
  name : Str
  isDataAction : Option Bool
deriving DecidableEq

/-- The fields of metav1.APIResource consulted by the modelled code. -/
structure APIResource where
  name : Str
  namespaced : Bool
deriving DecidableEq

/-- The fields of metav1.APIResourceList consulted by the modelled code. -/
structure APIResourceList where
  groupVersion : Str
  apiResources : List APIResource
deriving DecidableEq

/-- AuthorizationEntity from utils.go. -/
structure AuthorizationEntity where
  id : Str
deriving DecidableEq

/-- AuthorizationActionInfo from utils.go (the embedded AuthorizationEntity
is modelled as an explicit field, as the source itself addresses it:
da.ActionInfo.AuthorizationEntity.Id). -/
structure AuthorizationActionInfo where
  authorizationEntity : AuthorizationEntity
  isDataAction : Bool
deriving DecidableEq

/-- DataAction from utils.go. -/
structure DataAction where
  actionInfo : AuthorizationActionInfo
  isNamespacedResource : Bool
deriving DecidableEq

/-- VerbAndActionsMap (Go map[string]DataAction), as an association list. -/
abbrev VerbAndActionsMap : Type := List (Str × DataAction)

/-- ResourceAndVerbMap (Go map[string]VerbAndActionsMap). -/
abbrev ResourceAndVerbMap : Type := List (Str × VerbAndActionsMap)

/-- OperationsMap (Go map[string]ResourceAndVerbMap). -/
abbrev OperationsMap : Type := List (Str × ResourceAndVerbMap)

/-- Lookup in an association-list map. -/
def alookup {α : Type} (k : Str) : List (Str × α) → Option α
  | [] => none
  | (k₁, v) :: rest => if k = k₁ then some v else alookup k rest

/-- Go map assignment m[k] = v: overwrite the binding if the key is present,
otherwise add it. -/
def aupsert {α : Type} (k : Str) (v : α) : List (Str × α) → List (Str × α)
  | [] => [(k, v)]
  | (k₁, w) :: rest => if k = k₁ then (k, v) :: rest else (k₁, w) :: aupsert k v rest

/-- The table update performed by createOperationsMap: create the group and
resource levels if absent, then set operationsMap[group][resource][verb]. -/
def insertOp (m : OperationsMap) (group resourceName verb : Str) (da : DataAction) : OperationsMap :=
  let rm := (alookup group m).getD []
  let vm := (alookup resourceName rm).getD []
  aupsert group (aupsert resourceName (aupsert verb da vm) rm) m

/-- Two-level lookup: the verb map stored under a group and resource name. -/
def lookup2 (m : OperationsMap) (group resourceName : Str) : Option VerbAndActionsMap :=
  match alookup group m with
  | none => none
  | some rm => alookup resourceName rm

/-- Three-level lookup: the record stored under a group, resource and verb. -/
def lookup3 (m : OperationsMap) (group resourceName verb : Str) : Option DataAction :=
  match lookup2 m group resourceName with
  | none => none
  | some vm => alookup verb vm

/-- Lookup through the panic-tracking Option wrapper of createOperationsMap. -/
def olookup3 (m : Option OperationsMap) (group resourceName verb : Str) : Option DataAction :=
  match m with
  | none => none
  | some t => lookup3 t group resourceName verb

/-- The verb computed by createOperationsMap from a matched operation name:
the last slash segment, joined after the second-to-last one when it is the
literal "action".  (The source indexes opNameArr[len-1] and opNameArr[len-2];
it only runs where len is at least 3, where the getD defaults are dead.) -/
def verbOf (name : Str) : Str :=
  let opNameArr := splitSlash name
  let verb := (opNameArr.get? (opNameArr.length - 1)).getD []
  if verb = chars "action" then
    pathJoin ((opNameArr.get? (opNameArr.length - 2)).getD []) verb
  else verb

/-- The record built by createOperationsMap for a matched operation. -/
def mkDataAction (name : Str) (namespaced : Bool) : DataAction :=
  { actionInfo := { authorizationEntity := { id := name }, isDataAction := true },
    isNamespacedResource := namespaced }

/-- Outcome of one iteration of the operations loop in createOperationsMap:
no substring match or a failed disambiguation check skips the operation; a
match stores a record; reading segment index 2 of an identifier with fewer
than three segments is the Go index-out-of-range panic. -/
inductive OpOutcome where
  | panic : OpOutcome
  | skip : OpOutcome
  | store (verb : Str) (da : DataAction) : OpOutcome
deriving DecidableEq

/-- The body of the operations loop of createOperationsMap for one operation. -/
def opOutcome (group resourceName : Str) (namespaced : Bool) (actionId : Str) (op : Operation) : OpOutcome :=
  if containsSub op.name actionId then
    match (splitSlash op.name).get? 2 with
    | none => .panic
    | some seg2 =>
      if (if group ≠ chars "v1" then group ≠ seg2 else resourceName ≠ seg2) then .skip
      else .store (verbOf op.name) (mkDataAction op.name namespaced)
  else .skip

/-- The operations loop of createOperationsMap for one cluster resource. -/
def opsFold (group resourceName : Str) (namespaced : Bool) (actionId : Str) : OperationsMap → List Operation → Option OperationsMap
  | m, [] => some m
  | m, op :: rest =>
    match opOutcome group resourceName namespaced actionId op with
    | .panic => none
    | .skip => opsFold group resourceName namespaced actionId m rest
    | .store verb da =>
      opsFold group resourceName namespaced actionId (insertOp m group resourceName verb da) rest

/-- The match prefix built by createOperationsMap for one resource:
clusterType, then the group when it is not the core label, then the
resource name, combined with path.Join. -/
def mkActionId (clusterType group resourceName : Str) : Str :=
  let actionId := clusterType
  let actionId := if group ≠ chars "v1" then pathJoin actionId group else actionId
  pathJoin actionId resourceName

/-- The body of the resource loop of createOperationsMap: skip subresources
(names containing a slash), otherwise scan all operations. -/
def processResource (clusterType : Str) (operationsList : List Operation) (group : Str) (m : OperationsMap) (apiResource : APIResource) : Option OperationsMap :=
  if '/' ∈ apiResource.name then some m
  else
    opsFold group apiResource.name apiResource.namespaced
      (mkActionId clusterType group apiResource.name) m operationsList

/-- The resource loop of createOperationsMap for one resource-list entry. -/
def resFold (clusterType : Str) (operationsList : List Operation) (group : Str) : OperationsMap → List APIResource → Option OperationsMap
  | m, [] => some m
  | m, r :: rest =>
    match processResource clusterType operationsList group m r with
    | none => none
    | some m₁ => resFold clusterType operationsList group m₁ rest

/-- The canonical group label of createOperationsMap: "v1" for the core
group (empty or "v1" group-version), otherwise the part of the
group-version string before the first slash. -/
def groupOf (groupVersion : Str) : Str :=
  if groupVersion ≠ [] ∧ groupVersion ≠ chars "v1" then (splitSlash groupVersion).headD []
  else chars "v1"

/-- The body of the outer loop of createOperationsMap for one
APIResourceList: skip entries with no resources. -/
def processResList (clusterType : Str) (operationsList : List Operation) (m : OperationsMap) (resList : APIResourceList) : Option OperationsMap :=
  if resList.apiResources.length = 0 then some m
  else resFold clusterType operationsList (groupOf resList.groupVersion) m resList.apiResources

/-- The outer loop of createOperationsMap. -/
def listFold (clusterType : Str) (operationsList : List Operation) : OperationsMap → List APIResourceList → Option OperationsMap
  | m, [] => some m
  | m, rl :: rest =>
    match processResList clusterType operationsList m rl with
    | none => none
    | some m₁ => listFold clusterType operationsList m₁ rest

/-- createOperationsMap from utils.go; `none` models an index-out-of-range
panic while reading segment 2 of a matched operation identifier. -/
def createOperationsMap (apiResourcesList : List APIResourceList) (operationsList : List Operation) (clusterType : Str) : Option OperationsMap :=
  listFold clusterType operationsList [] apiResourcesList

/-- The fields of the go-autorest azure.Environment value consulted by the
modelled code. -/
structure AzureEnvironment where
  name : Str
  resourceManagerEndpoint : Str
  activeDirectoryEndpoint : Str
deriving DecidableEq

/-- The go-autorest public-cloud environment (the fields used here). -/
def PublicCloud : AzureEnvironment :=
  { name := chars "AzurePublicCloud",
    resourceManagerEndpoint := chars "https://management.azure.com/",
    activeDirectoryEndpoint := chars "https://login.microsoftonline.com/" }

/-- The go-autorest China-cloud environment (the fields used here). -/
def ChinaCloud : AzureEnvironment :=
  { name := chars "AzureChinaCloud",
    resourceManagerEndpoint := chars "https://management.chinacloudapi.cn/",
    activeDirectoryEndpoint := chars "https://login.chinacloudapi.cn/" }

/-- The go-autorest German-cloud environment (the fields used here). -/
def GermanCloud : AzureEnvironment :=
  { name := chars "AzureGermanCloud",
    resourceManagerEndpoint := chars "https://management.microsoftazure.de/",
    activeDirectoryEndpoint := chars "https://login.microsoftonline.de/" }

/-- The go-autorest US-government environment (the fields used here). -/
def USGovernmentCloud : AzureEnvironment :=
  { name := chars "AzureUSGovernmentCloud",
    resourceManagerEndpoint := chars "https://management.usgovcloudapi.net/",
    activeDirectoryEndpoint := chars "https://login.microsoftonline.us/" }

/-- ASCII upper-casing of a name, as Go strings.ToUpper acts on the ASCII
environment names that go-autorest recognizes. -/
def asciiUpper (s : Str) : Str := s.map Char.toUpper

/-- The go-autorest azure.EnvironmentFromName lookup (external library
dependency of utils.go): upper-case the name and look it up among the known
cloud environments; unknown names fail.  The AZURESTACKCLOUD special case
reads an environment file from disk and fails when it is not configured, so
it is modelled as the failure it produces in this program's deployment. -/
def EnvironmentFromName (name : Str) : Except Str AzureEnvironment :=
  let normalized := asciiUpper name
  if normalized = chars "AZURECHINACLOUD" then .ok ChinaCloud
  else if normalized = chars "AZUREGERMANCLOUD" then .ok GermanCloud
  else if normalized = chars "AZURECLOUD" ∨ normalized = chars "AZUREPUBLICCLOUD" then .ok PublicCloud
  else if normalized = chars "AZUREUSGOVERNMENT" ∨ normalized = chars "AZUREUSGOVERNMENTCLOUD" then .ok USGovernmentCloud
  else .error (name ++ chars " is not a valid environment name")

/-- DiscoverResourcesSettings from utils.go. -/
structure DiscoverResourcesSettings where
  clusterType : Str
  environment : AzureEnvironment
  operationsEndpoint : Str
  aksLoginURL : Str
  kubeconfigFilePath : Str
  tenantID : Str
  clientID : Str
  clientSecret : Str
deriving DecidableEq

/-- The two failure kinds of NewDiscoverResourcesSettings: a non-empty
environment name that does not resolve, and a cluster type outside the three
supported values. -/
inductive SettingsError where
  | unknownEnvironment (msg : Str) : SettingsError
  | unsupportedClusterType (clusterType : Str) : SettingsError
deriving DecidableEq

instance {ε α : Type} [DecidableEq ε] [DecidableEq α] : DecidableEq (Except ε α) := fun x y =>
  match x, y with
  | .ok a, .ok b =>
    if h : a = b then isTrue (by rw [h])
    else isFalse (fun hc => h (by injection hc))
  | .ok _, .error _ => isFalse (fun hc => by injection hc)
  | .error _, .ok _ => isFalse (fun hc => by injection hc)
  | .error e, .error f =>
    if h : e = f then isTrue (by rw [h])
    else isFalse (fun hc => h (by injection hc))

/-- The switch statement of NewDiscoverResourcesSettings, run once the
environment is resolved: pick the operations endpoint by cluster type; the
default case rejects unsupported cluster types. -/
def selectSettings (clusterType : Str) (env : AzureEnvironment) (loginURL kubeconfigFilePath tenantID clientID clientSecret : Str) : Except SettingsError DiscoverResourcesSettings :=
  if clusterType = ConnectedClusters then
    .ok { clusterType := clusterType, environment := env,
          operationsEndpoint := OperationsEndpointFormatARC env.resourceManagerEndpoint,
          aksLoginURL := loginURL, kubeconfigFilePath := kubeconfigFilePath,
          tenantID := tenantID, clientID := clientID, clientSecret := clientSecret }
  else if clusterType = ManagedClusters then
    .ok { clusterType := clusterType, environment := env,
          operationsEndpoint := OperationsEndpointFormatAKS env.resourceManagerEndpoint,
          aksLoginURL := loginURL, kubeconfigFilePath := kubeconfigFilePath,
          tenantID := tenantID, clientID := clientID, clientSecret := clientSecret }
  else if clusterType = Fleets then
    .ok { clusterType := clusterType, environment := env,
          operationsEndpoint := OperationsEndpointFormatAKS env.resourceManagerEndpoint,
          aksLoginURL := loginURL, kubeconfigFilePath := kubeconfigFilePath,
          tenantID := tenantID, clientID := clientID, clientSecret := clientSecret }
  else .error (.unsupportedClusterType clusterType)

/-- NewDiscoverResourcesSettings from utils.go: resolve the environment
(defaulting to the public cloud for an empty name, and returning the wrapped
parse error before the cluster type is examined), then pick the operations
endpoint by cluster type, rejecting unsupported cluster types. -/
def NewDiscoverResourcesSettings (clusterType environment loginURL kubeconfigFilePath tenantID clientID clientSecret : Str) : Except SettingsError DiscoverResourcesSettings :=
  match (if environment ≠ [] then EnvironmentFromName environment else .ok PublicCloud) with
  | .error e => .error (.unknownEnvironment e)
  | .ok env => selectSettings clusterType env loginURL kubeconfigFilePath tenantID clientID clientSecret

/-- The filter loop at the end of fetchDataActionsList in utils.go: keep the
decoded operations whose IsDataAction flag is true and whose name contains
the cluster type.  The Go code dereferences the IsDataAction pointer without
a nil check, so a missing or null flag is the nil-pointer panic, modelled by
`none`. -/
def fetchDataActionsFilter (clusterType : Str) : List Operation → Option (List Operation)
  | [] => some []
  | op :: rest =>
    match op.isDataAction with
    | none => none
    | some b =>
      match fetchDataActionsFilter clusterType rest with
      | none => none
      | some l => some (if b && containsSub op.name clusterType then op :: l else l)

/-- The error wrappers DiscoverResources puts around its two fetch phases. -/
inductive DiscoverError (ε : Type) where
  | apiResources (e : ε) : DiscoverError ε
  | operations (e : ε) : DiscoverError ε
deriving DecidableEq

/-- DiscoverResources from utils.go, with the two outbound fetches supplied
as already-completed results (they are network calls), keeping the source's
control flow: a failed fetch returns the initial empty operationsMap with
the wrapped error; otherwise the correlation result is returned.  The outer
Option models the index-out-of-range panic possibility of
createOperationsMap; the inner Option Discover error mirrors Go's
(OperationsMap, error) pair. -/
def DiscoverResources {ε : Type} (clusterType : Str)
    (apiResourcesResult : Except ε (List APIResourceList))
    (operationsResult : Except ε (List Operation)) :
    Option (OperationsMap × Option (DiscoverError ε)) :=
  let operationsMap : OperationsMap := []
  match apiResourcesResult with
  | .error e => some (operationsMap, some (.apiResources e))
  | .ok apiResourcesList =>
    match operationsResult with
    | .error e => some (operationsMap, some (.operations e))
    | .ok operationsList =>
      match createOperationsMap apiResourcesList operationsList clusterType with
      | none => none
      | some m => some (m, none)

/-- Whether an Except result is a success (Go err == nil). -/
def isOkResult {ε α : Type} : Except ε α → Bool
  | .ok _ => true
  | .error _ => false

/-! ## Association-list map lemmas -/

theorem alookup_aupsert {α : Type} (k k₁ : Str) (v : α) (m : List (Str × α)) :
    alookup k (aupsert k₁ v m) = if k = k₁ then some v else alookup k m := by
  induction m with
  | nil => simp [alookup, aupsert]
  | cons hd tl ih =>
    obtain ⟨k₂, w⟩ := hd
    simp only [aupsert]
    by_cases h1 : k₁ = k₂
    · subst h1
      by_cases h2 : k = k₁ <;> simp [alookup, h2]
    · simp only [if_neg h1, alookup, ih]
      by_cases h2 : k = k₂
      · subst h2
        have h3 : k ≠ k₁ := fun h => h1 h.symm
        simp [h3]
      · simp [h2]

theorem lookup2_insertOp_same (m : OperationsMap) (g r v : Str) (da : DataAction) :
    lookup2 (insertOp m g r v da) g r =
      some (aupsert v da ((alookup r ((alookup g m).getD [])).getD [])) := by
  simp [insertOp, lookup2, alookup_aupsert]

theorem lookup2_insertOp_other (m : OperationsMap) (g r v : Str) (da : DataAction)
    (g₁ r₁ : Str) (h : g₁ ≠ g ∨ r₁ ≠ r) :
    lookup2 (insertOp m g r v da) g₁ r₁ = lookup2 m g₁ r₁ := by
  by_cases hg : g₁ = g
  · subst hg
    have hr : r₁ ≠ r := h.resolve_left (fun h₁ => h₁ rfl)
    simp only [insertOp, lookup2, alookup_aupsert, if_pos rfl]
    cases hm : alookup g₁ m with
    | none => simp [alookup_aupsert, hr, alookup]
    | some rm => simp [alookup_aupsert, hr]
  · simp [insertOp, lookup2, alookup_aupsert, hg]

theorem lookup3_insertOp_same (m : OperationsMap) (g r v : Str) (da : DataAction) :
    lookup3 (insertOp m g r v da) g r v = some da := by
  simp [lookup3, lookup2_insertOp_same, alookup_aupsert]

theorem lookup3_insertOp_other (m : OperationsMap) (g r v : Str) (da : DataAction)
    (g₁ r₁ v₁ : Str) (h : g₁ ≠ g ∨ r₁ ≠ r ∨ v₁ ≠ v) :
    lookup3 (insertOp m g r v da) g₁ r₁ v₁ = lookup3 m g₁ r₁ v₁ := by
  by_cases hgr : g₁ = g ∧ r₁ = r
  · obtain ⟨hg, hr⟩ := hgr
    subst hg; subst hr
    have hv : v₁ ≠ v := by
      rcases h with h | h | h
      · exact absurd rfl h
      · exact absurd rfl h
      · exact h
    simp only [lookup3, lookup2_insertOp_same]
    cases hm : alookup g₁ m with
    | none =>
      simp [lookup2, hm, alookup_aupsert, hv, alookup]
    | some rm =>
      cases hrm : alookup r₁ rm with
      | none => simp [lookup2, hm, hrm, alookup_aupsert, hv, alookup]
      | some vm => simp [lookup2, hm, hrm, alookup_aupsert, hv]
  · have h₁ : g₁ ≠ g ∨ r₁ ≠ r := by
      by_cases hg : g₁ = g
      · exact Or.inr (fun hr => hgr ⟨hg, hr⟩)
      · exact Or.inl hg
    simp [lookup3, lookup2_insertOp_other m g r v da g₁ r₁ h₁]

/-! ## String lemmas -/

theorem splitSlash_ne_nil (s : Str) : splitSlash s ≠ [] := by
  cases s with
  | nil => simp [splitSlash]
  | cons c rest =>
    simp only [splitSlash]
    by_cases h : c = '/'
    · simp [h]
    · simp only [if_neg h]
      cases splitSlash rest <;> simp

theorem splitSlash_append (x y : Str) :
    splitSlash (x ++ '/' :: y) = splitSlash x ++ splitSlash y := by
  induction x with
  | nil => simp [splitSlash]
  | cons c t ih =>
    by_cases h : c = '/'
    · simp [splitSlash, h, ih]
    · simp only [List.cons_append, splitSlash, if_neg h]
      have ih₁ : splitSlash (t.append ('/' :: y)) = splitSlash t ++ splitSlash y := ih
      rw [ih₁]
      cases ht : splitSlash t with
      | nil => exact absurd ht (splitSlash_ne_nil t)
      | cons s ss => simp

theorem strJoin_splitSlash (s : Str) : strJoin (splitSlash s) = s := by
  induction s with
  | nil => simp [splitSlash, strJoin]
  | cons c t ih =>
    by_cases h : c = '/'
    · subst h
      simp only [splitSlash, if_pos rfl]
      cases ht : splitSlash t with
      | nil => exact absurd ht (splitSlash_ne_nil t)
      | cons s ss =>
        rw [ht] at ih
        simp [strJoin, ih]
    · simp only [splitSlash, if_neg h]
      cases ht : splitSlash t with
      | nil => exact absurd ht (splitSlash_ne_nil t)
      | cons s ss =>
        rw [ht] at ih
        cases ss with
        | nil => simp [strJoin] at ih ⊢; simp [ih]
        | cons u us => simp [strJoin] at ih ⊢; simp [ih]

theorem splitSlash_of_not_mem (s : Str) (h : '/' ∉ s) : splitSlash s = [s] := by
  induction s with
  | nil => simp [splitSlash]
  | cons c t ih =>
    have hc : c ≠ '/' := fun hc => h (hc ▸ List.mem_cons_self c t)
    have ht : '/' ∉ t := fun hm => h (List.mem_cons_of_mem c hm)
    simp [splitSlash, hc, ih ht]

theorem not_mem_of_mem_splitSlash (s x : Str) (hx : x ∈ splitSlash s) : '/' ∉ x := by
  induction s generalizing x with
  | nil =>
    simp [splitSlash] at hx
    simp [hx]
  | cons c t ih =>
    by_cases h : c = '/'
    · simp only [splitSlash, if_pos h] at hx
      rcases List.mem_cons.mp hx with h₁ | h₁
      · simp [h₁]
      · exact ih x h₁
    · simp only [splitSlash, if_neg h] at hx
      cases ht : splitSlash t with
      | nil => exact absurd ht (splitSlash_ne_nil t)
      | cons s₀ ss =>
        rw [ht] at hx
        rcases List.mem_cons.mp hx with h₁ | h₁
        · subst h₁
          intro hm
          rcases List.mem_cons.mp hm with h₂ | h₂
          · exact h h₂.symm
          · exact ih s₀ (ht ▸ List.mem_cons_self s₀ ss) h₂
        · exact ih x (ht ▸ List.mem_cons_of_mem s₀ h₁)

theorem length_splitSlash (s : Str) : (splitSlash s).length = countSlash s + 1 := by
  induction s with
  | nil => simp [splitSlash, countSlash]
  | cons c t ih =>
    by_cases h : c = '/'
    · simp [splitSlash, countSlash, h, ih]
      omega
    · simp only [splitSlash, countSlash, if_neg h]
      cases ht : splitSlash t with
      | nil => exact absurd ht (splitSlash_ne_nil t)
      | cons s₀ ss =>
        rw [ht] at ih
        simp at ih ⊢
        omega

theorem countSlash_append (x y : Str) :
    countSlash (x ++ y) = countSlash x + countSlash y := by
  induction x with
  | nil => simp [countSlash]
  | cons c t ih => simp [countSlash, ih]; omega

theorem countSlash_eq_zero (s : Str) (h : '/' ∉ s) : countSlash s = 0 := by
  induction s with
  | nil => simp [countSlash]
  | cons c t ih =>
    have hc : c ≠ '/' := fun hc => h (hc ▸ List.mem_cons_self c t)
    have ht : '/' ∉ t := fun hm => h (List.mem_cons_of_mem c hm)
    simp [countSlash, hc, ih ht]

theorem startsWithSeq_eq_append (s p : Str) (h : startsWithSeq s p = true) :
    ∃ r, s = p ++ r := by
  induction p generalizing s with
  | nil => exact ⟨s, rfl⟩
  | cons d p₁ ih =>
    cases s with
    | nil => simp [startsWithSeq] at h
    | cons c s₁ =>
      simp only [startsWithSeq] at h
      by_cases hc : c = d
      · rw [if_pos hc] at h
        obtain ⟨r, hr⟩ := ih s₁ h
        exact ⟨r, by simp [hc, hr]⟩
      · simp [hc] at h

theorem containsSub_eq_append (s sub : Str) (h : containsSub s sub = true) :
    ∃ x y, s = x ++ sub ++ y := by
  induction s with
  | nil =>
    simp only [containsSub] at h
    obtain ⟨r, hr⟩ := startsWithSeq_eq_append [] sub h
    rcases List.append_eq_nil.mp hr.symm with ⟨h₁, h₂⟩
    exact ⟨[], [], by simp [h₁]⟩
  | cons c t ih =>
    simp only [containsSub, Bool.or_eq_true] at h
    rcases h with h | h
    · obtain ⟨r, hr⟩ := startsWithSeq_eq_append (c :: t) sub h
      exact ⟨[], r, by simp [hr]⟩
    · obtain ⟨x, y, hxy⟩ := ih h
      exact ⟨c :: x, y, by simp [hxy]⟩

theorem countSlash_le_of_containsSub (s sub : Str) (h : containsSub s sub = true) :
    countSlash sub ≤ countSlash s := by
  obtain ⟨x, y, hxy⟩ := containsSub_eq_append s sub h
  subst hxy
  simp [countSlash_append]
  omega

/-! ## pathClean and pathJoin on well-behaved segments -/

/-- A plain path segment: nonempty, slash-free, and neither "." nor "..".
Kubernetes resource names and API group names are plain segments. -/
def PlainSeg (s : Str) : Prop :=
  s ≠ [] ∧ '/' ∉ s ∧ s ≠ chars "." ∧ s ≠ chars ".."

instance (s : Str) : Decidable (PlainSeg s) := by
  unfold PlainSeg
  infer_instance

/-- A nicely formed relative path: nonempty, does not start with a slash,
and all of its slash segments are plain.  The three cluster type constants
are nice paths. -/
def NicePath (s : Str) : Prop :=
  s ≠ [] ∧ s.headD ' ' ≠ '/' ∧ ∀ x ∈ splitSlash s, PlainSeg x

instance (s : Str) : Decidable (NicePath s) := by
  unfold NicePath
  infer_instance

theorem keepSeg_of_plain (s : Str) (h : PlainSeg s) : keepSeg s = true := by
  obtain ⟨h₁, _, h₂, _⟩ := h
  simp [keepSeg, h₁, h₂]

theorem strJoin_append_single (l : List Str) (x : Str) :
    strJoin (l ++ [x]) = if l = [] then x else strJoin l ++ '/' :: x := by
  induction l with
  | nil => simp [strJoin]
  | cons a t ih =>
    cases t with
    | nil => simp [strJoin]
    | cons b u =>
      simp only [List.cons_append, strJoin] at ih ⊢
      have ih₁ : strJoin (b :: u.append [x]) =
          if b :: u = [] then x else strJoin (b :: u) ++ '/' :: x := ih
      rw [ih₁]
      simp [strJoin]

theorem cleanCore_no_dotdot (rooted : Bool) (segs : List Str)
    (h : ∀ x ∈ segs, x ≠ chars "..") (stack : List Str) :
    cleanCore rooted stack segs = stack.reverse ++ segs.filter keepSeg := by
  induction segs generalizing stack with
  | nil => simp [cleanCore]
  | cons seg rest ih =>
    have hseg : seg ≠ chars ".." := h seg (List.mem_cons_self seg rest)
    have hrest : ∀ x ∈ rest, x ≠ chars ".." := fun x hx => h x (List.mem_cons_of_mem seg hx)
    by_cases hdrop : seg = [] ∨ seg = chars "."
    · have hk : keepSeg seg = false := by
        rcases hdrop with h₁ | h₁ <;> simp [keepSeg, h₁]
      simp only [cleanCore, if_pos hdrop, List.filter_cons, hk]
      exact ih hrest stack
    · have hk : keepSeg seg = true := by
        simp only [keepSeg]
        push_neg at hdrop
        simp [hdrop.1, hdrop.2]
      simp only [cleanCore, if_neg hdrop, if_neg hseg, List.filter_cons, hk]
      rw [ih hrest (seg :: stack)]
      simp

theorem pathClean_nice (s : Str) (h₁ : s ≠ []) (h₂ : s.headD ' ' ≠ '/')
    (h₃ : ∀ x ∈ splitSlash s, x ≠ chars "..") :
    pathClean s =
      (if strJoin ((splitSlash s).filter keepSeg) = [] then chars "."
       else strJoin ((splitSlash s).filter keepSeg)) := by
  have hb : (s.headD ' ' == '/') = false := by
    simp only [beq_eq_false_iff_ne, ne_eq]
    exact h₂
  simp only [pathClean, if_neg h₁, hb, cleanCore_no_dotdot false (splitSlash s) h₃ []]
  simp

theorem headD_append_of_ne_nil (a b : Str) (h : a ≠ []) :
    (a ++ b).headD ' ' = a.headD ' ' := by
  cases a with
  | nil => exact absurd rfl h
  | cons c t => simp

theorem plain_head_ne_slash (s : Str) (h : PlainSeg s) : s.headD ' ' ≠ '/' := by
  obtain ⟨h₁, h₂, _, _⟩ := h
  cases s with
  | nil => exact absurd rfl h₁
  | cons c t =>
    simp only [List.headD_cons]
    intro hc
    exact h₂ (hc ▸ List.mem_cons_self c t)

theorem nice_head (s : Str) (h : NicePath s) : s.headD ' ' ≠ '/' := h.2.1

theorem pathJoin_nice_plain (a b : Str) (ha : NicePath a) (hb : PlainSeg b) :
    pathJoin a b = a ++ '/' :: b := by
  obtain ⟨ha₁, ha₂, ha₃⟩ := ha
  have hsplit : splitSlash (a ++ '/' :: b) = splitSlash a ++ [b] := by
    rw [splitSlash_append, splitSlash_of_not_mem b hb.2.1]
  have hmem : ∀ x ∈ splitSlash (a ++ '/' :: b), x ≠ chars ".." := by
    intro x hx
    rw [hsplit] at hx
    rcases List.mem_append.mp hx with h | h
    · exact (ha₃ x h).2.2.2
    · simp at h
      subst h
      exact hb.2.2.2
  have hne : a ++ '/' :: b ≠ [] := by simp [ha₁]
  have hhead : (a ++ '/' :: b).headD ' ' ≠ '/' := by
    rw [headD_append_of_ne_nil a ('/' :: b) ha₁]
    exact ha₂
  rw [pathJoin, if_neg ha₁, pathClean_nice (a ++ '/' :: b) hne hhead hmem, hsplit]
  have hfilter : (splitSlash a ++ [b]).filter keepSeg = splitSlash a ++ [b] := by
    rw [List.filter_eq_self]
    intro x hx
    rcases List.mem_append.mp hx with h | h
    · exact keepSeg_of_plain x (ha₃ x h)
    · simp at h
      subst h
      exact keepSeg_of_plain x hb
  rw [hfilter, strJoin_append_single, if_neg (splitSlash_ne_nil a), strJoin_splitSlash]
  simp [ha₁]

theorem nicePath_append (a b : Str) (ha : NicePath a) (hb : PlainSeg b) :
    NicePath (a ++ '/' :: b) := by
  obtain ⟨ha₁, ha₂, ha₃⟩ := ha
  refine ⟨by simp [ha₁], ?_, ?_⟩
  · rw [headD_append_of_ne_nil a ('/' :: b) ha₁]
    exact ha₂
  · intro x hx
    rw [splitSlash_append, splitSlash_of_not_mem b hb.2.1] at hx
    rcases List.mem_append.mp hx with h | h
    · exact ha₃ x h
    · simp at h
      subst h
      exact hb

theorem pathJoin_nice_drop (a b : Str) (ha : NicePath a) (hb₁ : '/' ∉ b)
    (hb₂ : keepSeg b = false) (hb₃ : b ≠ chars "..") :
    pathJoin a b = a := by
  obtain ⟨ha₁, ha₂, ha₃⟩ := ha
  have hsplit : splitSlash (a ++ '/' :: b) = splitSlash a ++ [b] := by
    rw [splitSlash_append, splitSlash_of_not_mem b hb₁]
  have hmem : ∀ x ∈ splitSlash (a ++ '/' :: b), x ≠ chars ".." := by
    intro x hx
    rw [hsplit] at hx
    rcases List.mem_append.mp hx with h | h
    · exact (ha₃ x h).2.2.2
    · simp at h
      subst h
      exact hb₃
  have hne : a ++ '/' :: b ≠ [] := by simp [ha₁]
  have hhead : (a ++ '/' :: b).headD ' ' ≠ '/' := by
    rw [headD_append_of_ne_nil a ('/' :: b) ha₁]
    exact ha₂
  rw [pathJoin, if_neg ha₁, pathClean_nice (a ++ '/' :: b) hne hhead hmem, hsplit]
  have hfilter : (splitSlash a ++ [b]).filter keepSeg = splitSlash a := by
    rw [List.filter_append]
    have h₁ : (splitSlash a).filter keepSeg = splitSlash a := by
      rw [List.filter_eq_self]
      intro x hx
      exact keepSeg_of_plain x (ha₃ x hx)
    simp [h₁, List.filter_cons, hb₂]
  rw [hfilter, strJoin_splitSlash]
  simp [ha₁]

theorem countSlash_append_seg (a b : Str) (hb : '/' ∉ b) :
    countSlash (a ++ '/' :: b) = countSlash a + 1 := by
  rw [countSlash_append]
  simp [countSlash, countSlash_eq_zero b hb]

/-- The canonical group label never contains a slash. -/
theorem groupOf_no_slash (gv : Str) : '/' ∉ groupOf gv := by
  unfold groupOf
  split
  · cases hs : splitSlash gv with
    | nil => exact absurd hs (splitSlash_ne_nil gv)
    | cons s ss =>
      simp only [List.headD_cons]
      exact not_mem_of_mem_splitSlash gv s (hs ▸ List.mem_cons_self s ss)
  · decide

/-- The key counting fact for panic-freedom: for a nice cluster type with at
least one slash, a plain resource name, and a slash-free group that is not
"..", the match prefix contains at least two slashes. -/
theorem countSlash_mkActionId (ct group name : Str) (hct : NicePath ct)
    (hc : 1 ≤ countSlash ct) (hg : '/' ∉ group) (hgdd : group ≠ chars "..")
    (hn : PlainSeg name) :
    2 ≤ countSlash (mkActionId ct group name) := by
  have hinner : NicePath (if group ≠ chars "v1" then pathJoin ct group else ct) ∧
      countSlash ct ≤ countSlash (if group ≠ chars "v1" then pathJoin ct group else ct) := by
    by_cases hgv : group = chars "v1"
    · simp [hgv, hct]
    · simp only [ne_eq, hgv, not_false_iff, if_pos, if_true]
      by_cases hk : keepSeg group = true
      · have hp : PlainSeg group := by
          refine ⟨?_, hg, ?_, hgdd⟩ <;> by_contra h <;> simp [keepSeg, h] at hk
        rw [pathJoin_nice_plain ct group hct hp]
        constructor
        · exact nicePath_append ct group hct hp
        · rw [countSlash_append_seg ct group hg]
          omega
      · have hk₁ : keepSeg group = false := by
          cases h : keepSeg group
          · rfl
          · exact absurd h hk
        rw [pathJoin_nice_drop ct group hct hg hk₁ hgdd]
        exact ⟨hct, le_refl _⟩
  obtain ⟨hi₁, hi₂⟩ := hinner
  unfold mkActionId
  rw [pathJoin_nice_plain _ name hi₁ hn, countSlash_append_seg _ name hn.2.1]
  omega

/-! ## Panic freedom of the operations loop -/

theorem opOutcome_ne_panic (group resourceName : Str) (namespaced : Bool)
    (actionId : Str) (op : Operation) (h : 2 ≤ countSlash actionId) :
    opOutcome group resourceName namespaced actionId op ≠ .panic := by
  unfold opOutcome
  by_cases hc : containsSub op.name actionId = true
  · simp only [if_pos hc]
    have hcount : 2 ≤ countSlash op.name :=
      le_trans h (countSlash_le_of_containsSub op.name actionId hc)
    have hlen : 2 < (splitSlash op.name).length := by
      rw [length_splitSlash]
      omega
    cases h₂ : (splitSlash op.name).get? 2 with
    | none =>
      rw [List.get?_eq_none] at h₂
      omega
    | some seg2 =>
      show (if (if group ≠ chars "v1" then group ≠ seg2 else resourceName ≠ seg2)
        then OpOutcome.skip
        else OpOutcome.store (verbOf op.name) (mkDataAction op.name namespaced)) ≠
          OpOutcome.panic
      by_cases hcond : (if group ≠ chars "v1" then group ≠ seg2 else resourceName ≠ seg2)
      · simp [hcond]
      · simp [hcond]
  · simp [hc]

theorem opsFold_isSome (group resourceName : Str) (namespaced : Bool)
    (actionId : Str) (h : 2 ≤ countSlash actionId) (ops : List Operation)
    (m : OperationsMap) :
    (opsFold group resourceName namespaced actionId m ops).isSome = true := by
  induction ops generalizing m with
  | nil => simp [opsFold]
  | cons op rest ih =>
    simp only [opsFold]
    cases ho : opOutcome group resourceName namespaced actionId op with
    | panic => exact absurd ho (opOutcome_ne_panic group resourceName namespaced actionId op h)
    | skip => exact ih m
    | store v da => exact ih (insertOp m group resourceName v da)

theorem processResource_isSome (clusterType : Str) (ops : List Operation)
    (gv : Str) (m : OperationsMap) (r : APIResource)
    (hct : NicePath clusterType) (hc : 1 ≤ countSlash clusterType)
    (hr : '/' ∈ r.name ∨ PlainSeg r.name)
    (hg : groupOf gv ≠ chars "..") :
    (processResource clusterType ops (groupOf gv) m r).isSome = true := by
  unfold processResource
  by_cases hs : '/' ∈ r.name
  · simp [hs]
  · have hp : PlainSeg r.name := hr.resolve_left hs
    rw [if_neg hs]
    exact opsFold_isSome _ _ _ _
      (countSlash_mkActionId clusterType (groupOf gv) r.name hct hc
        (groupOf_no_slash gv) hg hp) ops m

theorem resFold_isSome (clusterType : Str) (ops : List Operation) (gv : Str)
    (hct : NicePath clusterType) (hc : 1 ≤ countSlash clusterType)
    (hg : groupOf gv ≠ chars "..") :
    ∀ (rs : List APIResource) (m : OperationsMap),
      (∀ r ∈ rs, '/' ∈ r.name ∨ PlainSeg r.name) →
      (resFold clusterType ops (groupOf gv) m rs).isSome = true := by
  intro rs
  induction rs with
  | nil =>
    intro m _
    simp [resFold]
  | cons r rest ih =>
    intro m hr
    simp only [resFold]
    have h₁ := processResource_isSome clusterType ops gv m r hct hc
      (hr r (List.mem_cons_self r rest)) hg
    cases hp : processResource clusterType ops (groupOf gv) m r with
    | none => rw [hp] at h₁; simp at h₁
    | some m₁ => exact ih m₁ (fun x hx => hr x (List.mem_cons_of_mem r hx))

theorem listFold_isSome (clusterType : Str) (ops : List Operation)
    (hct : NicePath clusterType) (hc : 1 ≤ countSlash clusterType) :
    ∀ (ls : List APIResourceList) (m : OperationsMap),
      (∀ l ∈ ls, ∀ r ∈ l.apiResources, '/' ∈ r.name ∨ PlainSeg r.name) →
      (∀ l ∈ ls, groupOf l.groupVersion ≠ chars "..") →
      (listFold clusterType ops m ls).isSome = true := by
  intro ls
  induction ls with
  | nil =>
    intro m _ _
    simp [listFold]
  | cons l rest ih =>
    intro m hr hg
    simp only [listFold]
    have h₁ : (processResList clusterType ops m l).isSome = true := by
      unfold processResList
      split
      · simp
      · exact resFold_isSome clusterType ops l.groupVersion hct hc
          (hg l (List.mem_cons_self l rest)) l.apiResources m
          (hr l (List.mem_cons_self l rest))
    cases hp : processResList clusterType ops m l with
    | none => rw [hp] at h₁; simp at h₁
    | some m₁ =>
      exact ih m₁ (fun x hx => hr x (List.mem_cons_of_mem l hx))
        (fun x hx => hg x (List.mem_cons_of_mem l hx))

/-! ## The stored-record invariant of createOperationsMap -/

/-- Everything createOperationsMap ever stores satisfies: subresource names
never appear as resource keys; every stored record is a data action whose
verb key was computed from its identifier and whose identifier has the group
(or, for the core group, the resource name) at segment index 2. -/
def StoredOK (t : OperationsMap) : Prop :=
  (∀ g r, '/' ∈ r → lookup2 t g r = none) ∧
  (∀ g r v da, lookup3 t g r v = some da →
    da.actionInfo.isDataAction = true ∧
    v = verbOf da.actionInfo.authorizationEntity.id ∧
    (splitSlash da.actionInfo.authorizationEntity.id).get? 2 =
      some (if g = chars "v1" then r else g))

theorem storedOK_nil : StoredOK [] := by
  constructor
  · intro g r _
    simp [lookup2, alookup]
  · intro g r v da h
    simp [lookup3, lookup2, alookup] at h

theorem storedOK_insert (t : OperationsMap) (g r v : Str) (da : DataAction)
    (ht : StoredOK t) (hr : '/' ∉ r)
    (h₁ : da.actionInfo.isDataAction = true)
    (h₂ : v = verbOf da.actionInfo.authorizationEntity.id)
    (h₃ : (splitSlash da.actionInfo.authorizationEntity.id).get? 2 =
      some (if g = chars "v1" then r else g)) :
    StoredOK (insertOp t g r v da) := by
  obtain ⟨hk, hrec⟩ := ht
  constructor
  · intro g₁ r₁ hs
    have hne : r₁ ≠ r := fun h => hr (h ▸ hs)
    rw [lookup2_insertOp_other t g r v da g₁ r₁ (Or.inr hne)]
    exact hk g₁ r₁ hs
  · intro g₁ r₁ v₁ da₁ hl
    by_cases heq : g₁ = g ∧ r₁ = r ∧ v₁ = v
    · obtain ⟨hg, hr₁, hv⟩ := heq
      subst hg; subst hr₁; subst hv
      rw [lookup3_insertOp_same] at hl
      obtain rfl : da = da₁ := by injection hl
      exact ⟨h₁, h₂, h₃⟩
    · have hne : g₁ ≠ g ∨ r₁ ≠ r ∨ v₁ ≠ v := by
        by_cases hg : g₁ = g
        · by_cases hrr : r₁ = r
          · exact Or.inr (Or.inr (fun hv => heq ⟨hg, hrr, hv⟩))
          · exact Or.inr (Or.inl hrr)
        · exact Or.inl hg
      rw [lookup3_insertOp_other t g r v da g₁ r₁ v₁ hne] at hl
      exact hrec g₁ r₁ v₁ da₁ hl

theorem opOutcome_store_facts (group resourceName : Str) (namespaced : Bool)
    (actionId : Str) (op : Operation) (v : Str) (da : DataAction)
    (h : opOutcome group resourceName namespaced actionId op = .store v da) :
    da = mkDataAction op.name namespaced ∧ v = verbOf op.name ∧
    (splitSlash op.name).get? 2 = some (if group = chars "v1" then resourceName else group) := by
  unfold opOutcome at h
  by_cases hc : containsSub op.name actionId = true
  · rw [if_pos hc] at h
    cases h₂ : (splitSlash op.name).get? 2 with
    | none =>
      rw [h₂] at h
      have h₃ : OpOutcome.panic = OpOutcome.store v da := h
      simp at h₃
    | some seg2 =>
      rw [h₂] at h
      have h₃ : (if (if group ≠ chars "v1" then group ≠ seg2 else resourceName ≠ seg2)
        then OpOutcome.skip
        else OpOutcome.store (verbOf op.name) (mkDataAction op.name namespaced)) =
          OpOutcome.store v da := h
      by_cases hskip : (if group ≠ chars "v1" then group ≠ seg2 else resourceName ≠ seg2)
      · rw [if_pos hskip] at h₃; simp at h₃
      · rw [if_neg hskip] at h₃
        injection h₃ with hv hda
        refine ⟨hda.symm, hv.symm, ?_⟩
        by_cases hg : group = chars "v1"
        · rw [if_neg (not_not_intro hg)] at hskip
          rw [not_not] at hskip
          rw [if_pos hg, hskip]
        · rw [if_pos hg] at hskip
          rw [not_not] at hskip
          rw [if_neg hg, hskip]
  · rw [if_neg hc] at h
    have h₃ : OpOutcome.skip = OpOutcome.store v da := h
    simp at h₃

theorem opsFold_storedOK (group resourceName : Str) (namespaced : Bool)
    (actionId : Str) (hr : '/' ∉ resourceName) (ops : List Operation)
    (m t : OperationsMap) (hm : StoredOK m)
    (h : opsFold group resourceName namespaced actionId m ops = some t) :
    StoredOK t := by
  induction ops generalizing m with
  | nil =>
    simp only [opsFold, Option.some.injEq] at h
    exact h ▸ hm
  | cons op rest ih =>
    simp only [opsFold] at h
    cases ho : opOutcome group resourceName namespaced actionId op with
    | panic => rw [ho] at h; simp at h
    | skip =>
      rw [ho] at h
      exact ih m hm h
    | store v da =>
      rw [ho] at h
      obtain ⟨hda, hv, hseg⟩ :=
        opOutcome_store_facts group resourceName namespaced actionId op v da ho
      refine ih (insertOp m group resourceName v da) ?_ h
      refine storedOK_insert m group resourceName v da hm hr ?_ ?_ ?_
      · rw [hda]; rfl
      · rw [hda]; exact hv
      · rw [hda]; exact hseg

theorem processResource_storedOK (clusterType : Str) (ops : List Operation)
    (group : Str) (m t : OperationsMap) (r : APIResource) (hm : StoredOK m)
    (h : processResource clusterType ops group m r = some t) :
    StoredOK t := by
  unfold processResource at h
  by_cases hs : '/' ∈ r.name
  · rw [if_pos hs] at h
    obtain rfl : m = t := by injection h
    exact hm
  · rw [if_neg hs] at h
    exact opsFold_storedOK group r.name r.namespaced
      (mkActionId clusterType group r.name) hs ops m t hm h

theorem resFold_storedOK (clusterType : Str) (ops : List Operation)
    (group : Str) (rs : List APIResource) (m t : OperationsMap) (hm : StoredOK m)
    (h : resFold clusterType ops group m rs = some t) :
    StoredOK t := by
  induction rs generalizing m with
  | nil =>
    simp only [resFold, Option.some.injEq] at h
    exact h ▸ hm
  | cons r rest ih =>
    simp only [resFold] at h
    cases hp : processResource clusterType ops group m r with
    | none => rw [hp] at h; simp at h
    | some m₁ =>
      rw [hp] at h
      exact ih m₁ (processResource_storedOK clusterType ops group m m₁ r hm hp) h

theorem listFold_storedOK (clusterType : Str) (ops : List Operation)
    (ls : List APIResourceList) (m t : OperationsMap) (hm : StoredOK m)
    (h : listFold clusterType ops m ls = some t) :
    StoredOK t := by
  induction ls generalizing m with
  | nil =>
    simp only [listFold, Option.some.injEq] at h
    exact h ▸ hm
  | cons l rest ih =>
    simp only [listFold] at h
    cases hp : processResList clusterType ops m l with
    | none => rw [hp] at h; simp at h
    | some m₁ =>
      rw [hp] at h
      refine ih m₁ ?_ h
      unfold processResList at hp
      by_cases hz : l.apiResources.length = 0
      · rw [if_pos hz] at hp
        obtain rfl : m = m₁ := by injection hp
        exact hm
      · rw [if_neg hz] at hp
        exact resFold_storedOK clusterType ops (groupOf l.groupVersion)
          l.apiResources m m₁ hm hp

theorem createOperationsMap_storedOK (apiList : List APIResourceList)
    (ops : List Operation) (clusterType : Str) (t : OperationsMap)
    (h : createOperationsMap apiList ops clusterType = some t) :
    StoredOK t :=
  listFold_storedOK clusterType ops apiList [] t storedOK_nil h

/-- A scan over operations none of which stores at verb v leaves the table
entry of (group, resourceName, v) unchanged. -/
theorem opsFold_lookup3_unchanged (group resourceName : Str) (namespaced : Bool)
    (actionId : Str) (v : Str) :
    ∀ (ops : List Operation) (m t : OperationsMap),
      (∀ op ∈ ops, ∀ da₁, opOutcome group resourceName namespaced actionId op ≠ .store v da₁) →
      opsFold group resourceName namespaced actionId m ops = some t →
      lookup3 t group resourceName v = lookup3 m group resourceName v := by
  intro ops
  induction ops with
  | nil =>
    intro m t _ h
    obtain rfl : m = t := by injection h
    rfl
  | cons op rest ih =>
    intro m t hno h
    simp only [opsFold] at h
    cases ho : opOutcome group resourceName namespaced actionId op with
    | panic => rw [ho] at h; simp at h
    | skip =>
      rw [ho] at h
      exact ih m t (fun x hx => hno x (List.mem_cons_of_mem op hx)) h
    | store v₁ da₁ =>
      rw [ho] at h
      have hv : v₁ ≠ v := by
        intro hv
        exact hno op (List.mem_cons_self op rest) da₁ (hv ▸ ho)
      rw [ih (insertOp m group resourceName v₁ da₁) t
        (fun x hx => hno x (List.mem_cons_of_mem op hx)) h]
      exact lookup3_insertOp_other m group resourceName v₁ da₁ group resourceName v
        (Or.inr (Or.inr (fun hvv => hv hvv.symm)))

/-! ## Claims -/

set_option maxRecDepth 8000

/-- C1: for a core-group resource list with the namespaced resource "pods"
and an operations list with the data action
"Microsoft.Kubernetes/connectedClusters/pods/read", createOperationsMap with
the connected-clusters cluster type produces a table whose entry at
["v1"]["pods"]["read"] is a DataAction whose id is the full operation name,
whose IsDataAction is true and whose IsNamespacedResource is true. -/
theorem claim_C1_pods_read_entry :
    olookup3
      (createOperationsMap
        [{ groupVersion := chars "v1",
           apiResources := [{ name := chars "pods", namespaced := true }] }]
        [{ name := chars "Microsoft.Kubernetes/connectedClusters/pods/read",
           isDataAction := some true }]
        ConnectedClusters)
      (chars "v1") (chars "pods") (chars "read") =
    some { actionInfo :=
             { authorizationEntity :=
                 { id := chars "Microsoft.Kubernetes/connectedClusters/pods/read" },
               isDataAction := true },
           isNamespacedResource := true } := by
  decide

/-- C2: a record stored under the core group key "v1" always has the
resource name at segment index 2 of its identifier, so the operation
"Microsoft.Kubernetes/connectedClusters/events.k8s.io/events/read" (whose
segment 2 is "events.k8s.io") is never stored under the core-group "events"
entry, for every input catalog and operations list. -/
theorem claim_C2_events_disambiguation (apiList : List APIResourceList)
    (ops : List Operation) (ct : Str) (t : OperationsMap) (v : Str) (da : DataAction)
    (h₁ : createOperationsMap apiList ops ct = some t)
    (h₂ : lookup3 t (chars "v1") (chars "events") v = some da) :
    (splitSlash da.actionInfo.authorizationEntity.id).get? 2 = some (chars "events") ∧
    da.actionInfo.authorizationEntity.id ≠
      chars "Microsoft.Kubernetes/connectedClusters/events.k8s.io/events/read" := by
  obtain ⟨-, hrec⟩ := createOperationsMap_storedOK apiList ops ct t h₁
  obtain ⟨-, -, hseg⟩ := hrec _ _ _ _ h₂
  rw [if_pos rfl] at hseg
  refine ⟨hseg, ?_⟩
  intro hid
  rw [hid] at hseg
  exact absurd hseg (by decide)

/-- Witness for C2 at a concrete input: the catalog has the core-group
resource "events", the operations list has both the events.k8s.io operation
and a genuine core events operation; the stored record is the core one. -/
theorem claim_C2_events_disambiguation_witness :
    (splitSlash (mkDataAction
        (chars "Microsoft.Kubernetes/connectedClusters/events/read") true).actionInfo.authorizationEntity.id).get? 2 =
      some (chars "events") ∧
    (mkDataAction (chars "Microsoft.Kubernetes/connectedClusters/events/read")
        true).actionInfo.authorizationEntity.id ≠
      chars "Microsoft.Kubernetes/connectedClusters/events.k8s.io/events/read" :=
  claim_C2_events_disambiguation
    [{ groupVersion := chars "v1",
       apiResources := [{ name := chars "events", namespaced := true }] }]
    [{ name := chars "Microsoft.Kubernetes/connectedClusters/events.k8s.io/events/read",
       isDataAction := some true },
     { name := chars "Microsoft.Kubernetes/connectedClusters/events/read",
       isDataAction := some true }]
    ConnectedClusters
    [(chars "v1", [(chars "events",
      [(chars "read",
        mkDataAction (chars "Microsoft.Kubernetes/connectedClusters/events/read") true)])])]
    (chars "read")
    (mkDataAction (chars "Microsoft.Kubernetes/connectedClusters/events/read") true)
    (by decide) (by decide)

/-- C3: the filter loop of fetchDataActionsList dereferences the
IsDataAction pointer without a nil check, so an operation with a missing or
null isDataAction crashes the fetch (modelled as none) instead of being
treated as isDataAction = false and excluded as the specification requires. -/
theorem claim_C3_nil_flag_crashes :
    fetchDataActionsFilter ConnectedClusters
      [{ name := chars "Microsoft.Kubernetes/connectedClusters/pods/read",
         isDataAction := none }] = none ∧
    fetchDataActionsFilter ConnectedClusters
      [{ name := chars "Microsoft.Kubernetes/connectedClusters/pods/read",
         isDataAction := none }] ≠ some [] := by
  exact ⟨rfl, by decide⟩

/-- C4: for the three supported cluster types (whose tags contain a slash),
any catalog whose resource names are subresources or plain segments and
whose derived groups are not "..", and every operations list, never make
createOperationsMap read segment index 2 out of bounds: every identifier
that passes the substring test splits into at least three segments, so the
fold always completes. -/
theorem claim_C4_no_out_of_bounds (ops : List Operation)
    (apiList : List APIResourceList) (ct : Str)
    (hct : ct = ManagedClusters ∨ ct = Fleets ∨ ct = ConnectedClusters)
    (hres : ∀ l ∈ apiList, ∀ r ∈ l.apiResources, '/' ∈ r.name ∨ PlainSeg r.name)
    (hgrp : ∀ l ∈ apiList, groupOf l.groupVersion ≠ chars "..") :
    (createOperationsMap apiList ops ct).isSome = true := by
  have hnice : NicePath ct ∧ 1 ≤ countSlash ct := by
    rcases hct with h | h | h <;> subst h <;> exact ⟨by decide, by decide⟩
  exact listFold_isSome ct ops hnice.1 hnice.2 apiList [] hres hgrp

/-- Witness for C4 at a concrete catalog and operations list. -/
theorem claim_C4_no_out_of_bounds_witness :
    (createOperationsMap
      [{ groupVersion := chars "v1",
         apiResources := [{ name := chars "pods", namespaced := true }] }]
      [{ name := chars "Microsoft.Kubernetes/connectedClusters/pods/read",
         isDataAction := some true }]
      ConnectedClusters).isSome = true :=
  claim_C4_no_out_of_bounds
    [{ name := chars "Microsoft.Kubernetes/connectedClusters/pods/read",
       isDataAction := some true }]
    [{ groupVersion := chars "v1",
       apiResources := [{ name := chars "pods", namespaced := true }] }]
    ConnectedClusters
    (Or.inr (Or.inr rfl)) (by decide) (by decide)

/-- C5: every verb key stored in the table is computed from the stored
record's identifier as the last slash segment, joined after the
second-to-last segment when the last segment is the literal "action". -/
theorem claim_C5_verb_from_identifier (apiList : List APIResourceList)
    (ops : List Operation) (ct : Str) (t : OperationsMap) (g r v : Str)
    (da : DataAction) (h₁ : createOperationsMap apiList ops ct = some t)
    (h₂ : lookup3 t g r v = some da) :
    v = verbOf da.actionInfo.authorizationEntity.id := by
  obtain ⟨-, hrec⟩ := createOperationsMap_storedOK apiList ops ct t h₁
  exact (hrec _ _ _ _ h₂).2.1

/-- Witness for C5: a custom-action identifier ending in restart/action is
stored under the verb "restart/action", which verbOf computes. -/
theorem claim_C5_verb_from_identifier_witness :
    chars "restart/action" =
      verbOf (mkDataAction
        (chars "Microsoft.Kubernetes/connectedClusters/pods/restart/action")
        true).actionInfo.authorizationEntity.id :=
  claim_C5_verb_from_identifier
    [{ groupVersion := chars "v1",
       apiResources := [{ name := chars "pods", namespaced := true }] }]
    [{ name := chars "Microsoft.Kubernetes/connectedClusters/pods/restart/action",
       isDataAction := some true }]
    ConnectedClusters
    [(chars "v1", [(chars "pods",
      [(chars "restart/action",
        mkDataAction (chars "Microsoft.Kubernetes/connectedClusters/pods/restart/action") true)])])]
    (chars "v1") (chars "pods") (chars "restart/action")
    (mkDataAction (chars "Microsoft.Kubernetes/connectedClusters/pods/restart/action") true)
    (by decide) (by decide)

/-- C6 counterexample: with an environment name that does not resolve, a
bogus cluster type produces the environment-parse error rather than
UnsupportedClusterType, because the environment is resolved before the
cluster type switch runs. -/
theorem claim_C6_counterexample :
    NewDiscoverResourcesSettings (chars "foo") (chars "NOTANENV")
        [] [] [] [] [] ≠
      Except.error (.unsupportedClusterType (chars "foo")) := by
  decide

/-- C6 (amended): for every cluster type outside the three supported values,
NewDiscoverResourcesSettings returns an error and no settings object; the
error is UnsupportedClusterType whenever the environment argument is empty
or resolves to a known environment, while an unresolvable environment name
yields the environment error instead. -/
theorem claim_C6_unsupported_cluster_type
    (clusterType environment loginURL kubeconfigFilePath tenantID clientID clientSecret : Str)
    (h₁ : clusterType ≠ ManagedClusters) (h₂ : clusterType ≠ Fleets)
    (h₃ : clusterType ≠ ConnectedClusters) :
    isOkResult (NewDiscoverResourcesSettings clusterType environment loginURL
      kubeconfigFilePath tenantID clientID clientSecret) = false ∧
    ((environment = [] ∨ isOkResult (EnvironmentFromName environment) = true) →
      NewDiscoverResourcesSettings clusterType environment loginURL
        kubeconfigFilePath tenantID clientID clientSecret =
      Except.error (.unsupportedClusterType clusterType)) := by
  unfold NewDiscoverResourcesSettings
  cases he : (if environment ≠ [] then EnvironmentFromName environment
      else Except.ok PublicCloud) with
  | error e =>
    constructor
    · rfl
    · intro hok
      exfalso
      rcases hok with hnil | hok
      · rw [if_neg (not_not_intro hnil)] at he
        exact absurd he (by simp)
      · by_cases hnil : environment = []
        · rw [if_neg (not_not_intro hnil)] at he
          exact absurd he (by simp)
        · rw [if_pos hnil] at he
          rw [he] at hok
          exact absurd hok (by simp [isOkResult])
  | ok env =>
    have hsel : selectSettings clusterType env loginURL kubeconfigFilePath
        tenantID clientID clientSecret = .error (.unsupportedClusterType clusterType) := by
      unfold selectSettings
      rw [if_neg h₃, if_neg h₁, if_neg h₂]
    constructor
    · show isOkResult (selectSettings clusterType env loginURL kubeconfigFilePath
        tenantID clientID clientSecret) = false
      rw [hsel]
      rfl
    · intro _
      show selectSettings clusterType env loginURL kubeconfigFilePath
        tenantID clientID clientSecret = Except.error (.unsupportedClusterType clusterType)
      exact hsel

/-- Witness for C6 (amended) at a concrete unsupported cluster type with the
default environment. -/
theorem claim_C6_unsupported_cluster_type_witness :
    isOkResult (NewDiscoverResourcesSettings (chars "foo") [] [] [] [] [] []) = false ∧
    (([] : Str) = [] ∨ isOkResult (EnvironmentFromName []) = true →
      NewDiscoverResourcesSettings (chars "foo") [] [] [] [] [] [] =
      Except.error (.unsupportedClusterType (chars "foo"))) :=
  claim_C6_unsupported_cluster_type (chars "foo") [] [] [] [] [] []
    (by decide) (by decide) (by decide)

/-- C7: every successfully constructed settings object carries the endpoint
determined by its cluster type and resolved environment: the ARC template
for connected clusters and the AKS template for managed clusters and
fleets, instantiated with the environment's resource-manager endpoint. -/
theorem claim_C7_endpoint_selection
    (clusterType environment loginURL kubeconfigFilePath tenantID clientID clientSecret : Str)
    (s : DiscoverResourcesSettings)
    (h : NewDiscoverResourcesSettings clusterType environment loginURL
      kubeconfigFilePath tenantID clientID clientSecret = .ok s) :
    (s.clusterType = ConnectedClusters ∧
      s.operationsEndpoint =
        OperationsEndpointFormatARC s.environment.resourceManagerEndpoint) ∨
    ((s.clusterType = ManagedClusters ∨ s.clusterType = Fleets) ∧
      s.operationsEndpoint =
        OperationsEndpointFormatAKS s.environment.resourceManagerEndpoint) := by
  unfold NewDiscoverResourcesSettings at h
  cases he : (if environment ≠ [] then EnvironmentFromName environment
      else Except.ok PublicCloud) with
  | error e =>
    rw [he] at h
    exact absurd h (by simp)
  | ok env =>
    rw [he] at h
    have h₄ : selectSettings clusterType env loginURL kubeconfigFilePath
        tenantID clientID clientSecret = .ok s := h
    unfold selectSettings at h₄
    by_cases hc : clusterType = ConnectedClusters
    · rw [if_pos hc] at h₄
      obtain rfl : _ = s := by injection h₄
      exact Or.inl ⟨hc, rfl⟩
    · rw [if_neg hc] at h₄
      by_cases hm : clusterType = ManagedClusters
      · rw [if_pos hm] at h₄
        obtain rfl : _ = s := by injection h₄
        exact Or.inr ⟨Or.inl hm, rfl⟩
      · rw [if_neg hm] at h₄
        by_cases hf : clusterType = Fleets
        · rw [if_pos hf] at h₄
          obtain rfl : _ = s := by injection h₄
          exact Or.inr ⟨Or.inr hf, rfl⟩
        · rw [if_neg hf] at h₄
          exact absurd h₄ (by simp)

/-- Witness for C7 at a successfully constructed connected-clusters settings
object with the default public-cloud environment. -/
theorem claim_C7_endpoint_selection_witness :
    (selectSettings ConnectedClusters PublicCloud [] [] [] [] []).toOption.elim False
      (fun s =>
        (s.clusterType = ConnectedClusters ∧
          s.operationsEndpoint =
            OperationsEndpointFormatARC s.environment.resourceManagerEndpoint) ∨
        ((s.clusterType = ManagedClusters ∨ s.clusterType = Fleets) ∧
          s.operationsEndpoint =
            OperationsEndpointFormatAKS s.environment.resourceManagerEndpoint)) :=
  claim_C7_endpoint_selection ConnectedClusters [] [] [] [] [] []
    { clusterType := ConnectedClusters, environment := PublicCloud,
      operationsEndpoint := OperationsEndpointFormatARC PublicCloud.resourceManagerEndpoint,
      aksLoginURL := [], kubeconfigFilePath := [], tenantID := [],
      clientID := [], clientSecret := [] }
    (by decide)

/-- C8: a resource name containing a slash (a subresource) never appears as
a resource-name key in the output table, under any group. -/
theorem claim_C8_no_subresource_keys (apiList : List APIResourceList)
    (ops : List Operation) (ct : Str) (t : OperationsMap)
    (h : createOperationsMap apiList ops ct = some t)
    (g r : Str) (hs : '/' ∈ r) :
    lookup2 t g r = none :=
  (createOperationsMap_storedOK apiList ops ct t h).1 g r hs

/-- Witness for C8: a catalog containing the subresource "pods/status"
leaves no entry under that key. -/
theorem claim_C8_no_subresource_keys_witness :
    lookup2
      [(chars "v1", [(chars "pods",
        [(chars "read",
          mkDataAction (chars "Microsoft.Kubernetes/connectedClusters/pods/read") true)])])]
      (chars "v1") (chars "pods/status") = none :=
  claim_C8_no_subresource_keys
    [{ groupVersion := chars "v1",
       apiResources := [{ name := chars "pods", namespaced := true },
                        { name := chars "pods/status", namespaced := true }] }]
    [{ name := chars "Microsoft.Kubernetes/connectedClusters/pods/read",
       isDataAction := some true }]
    ConnectedClusters
    [(chars "v1", [(chars "pods",
      [(chars "read",
        mkDataAction (chars "Microsoft.Kubernetes/connectedClusters/pods/read") true)])])]
    (by decide) (chars "v1") (chars "pods/status") (by decide)

/-- C9: within the scan of the operations list for a resource, when a later
operation maps to the same (group, resource, verb) triple as an earlier one,
the record stored at that triple is the one derived from the operation
encountered later (the insertion overwrites any existing entry at the exact
triple, and the Option-valued lookup holds exactly one record per triple). -/
theorem claim_C9_last_write_wins (group resourceName : Str) (namespaced : Bool)
    (actionId : Str) (ops₁ ops₂ : List Operation) (op : Operation)
    (m t : OperationsMap) (v : Str) (da : DataAction)
    (hop : opOutcome group resourceName namespaced actionId op = .store v da)
    (hlater : ∀ op₁ ∈ ops₂, ∀ da₁,
      opOutcome group resourceName namespaced actionId op₁ ≠ .store v da₁)
    (hfold : opsFold group resourceName namespaced actionId m (ops₁ ++ op :: ops₂) = some t) :
    lookup3 t group resourceName v = some da := by
  induction ops₁ generalizing m with
  | nil =>
    rw [List.nil_append] at hfold
    simp only [opsFold] at hfold
    rw [hop] at hfold
    rw [opsFold_lookup3_unchanged group resourceName namespaced actionId v ops₂
      (insertOp m group resourceName v da) t hlater hfold]
    exact lookup3_insertOp_same m group resourceName v da
  | cons op₀ rest ih =>
    rw [List.cons_append] at hfold
    simp only [opsFold] at hfold
    cases ho : opOutcome group resourceName namespaced actionId op₀ with
    | panic => rw [ho] at hfold; simp at hfold
    | skip =>
      rw [ho] at hfold
      exact ih m hfold
    | store v₁ da₁ =>
      rw [ho] at hfold
      exact ih (insertOp m group resourceName v₁ da₁) hfold

/-- Witness for C9: two operations both map to ("v1", "pods", "read"); the
record stored is the one from the second operation. -/
theorem claim_C9_last_write_wins_witness :
    lookup3
      [(chars "v1", [(chars "pods",
        [(chars "read",
          mkDataAction (chars "Microsoft.Kubernetes/connectedClusters/pods/more/read") true)])])]
      (chars "v1") (chars "pods") (chars "read") =
    some (mkDataAction (chars "Microsoft.Kubernetes/connectedClusters/pods/more/read") true) :=
  claim_C9_last_write_wins (chars "v1") (chars "pods") true
    (mkActionId ConnectedClusters (chars "v1") (chars "pods"))
    [{ name := chars "Microsoft.Kubernetes/connectedClusters/pods/read",
       isDataAction := some true }]
    []
    { name := chars "Microsoft.Kubernetes/connectedClusters/pods/more/read",
      isDataAction := some true }
    []
    [(chars "v1", [(chars "pods",
      [(chars "read",
        mkDataAction (chars "Microsoft.Kubernetes/connectedClusters/pods/more/read") true)])])]
    (chars "read")
    (mkDataAction (chars "Microsoft.Kubernetes/connectedClusters/pods/more/read") true)
    (by decide)
    (fun op₁ h₁ => absurd h₁ (List.not_mem_nil op₁))
    (by decide)

/-- C10: whenever either fetch phase fails, DiscoverResources returns the
empty (zero-entry) OperationsMap together with the wrapped error, so the
error path never carries partial correlation results. -/
theorem claim_C10_empty_map_on_error {ε : Type} (clusterType : Str)
    (apiResourcesResult : Except ε (List APIResourceList))
    (operationsResult : Except ε (List Operation))
    (h : (∃ e, apiResourcesResult = .error e) ∨ (∃ e, operationsResult = .error e)) :
    ∃ err, DiscoverResources clusterType apiResourcesResult operationsResult =
      some (([] : OperationsMap), some err) := by
  rcases h with ⟨e, he⟩ | ⟨e, he⟩
  · subst he
    exact ⟨.apiResources e, rfl⟩
  · cases apiResourcesResult with
    | error e₁ => exact ⟨.apiResources e₁, rfl⟩
    | ok apiList =>
      subst he
      exact ⟨.operations e, rfl⟩

/-- Witness for C10 with a concrete failing operations fetch. -/
theorem claim_C10_empty_map_on_error_witness :
    ∃ err, DiscoverResources ConnectedClusters
             (Except.ok [{ groupVersion := chars "v1",
                           apiResources := [{ name := chars "pods", namespaced := true }] }])
             (Except.error (chars "boom") : Except Str (List Operation)) =
           some (([] : OperationsMap), some err) :=
  claim_C10_empty_map_on_error ConnectedClusters _ _
    (Or.inr ⟨chars "boom", rfl⟩)

end Guard
